import Mathlib

/-!
Shallow embedding of the concurrent batch-translation engine of
src/translate.py (class GeminiTranslator) together with the pieces of the
pipeline the claims refer to.

Modelling conventions:
- Python strings are Lean String; string helpers (strip, splitlines,
  replace, the index-marker regex) are modelled over the character list,
  restricted to the ASCII whitespace characters and the universal newline
  terminators CR, LF and CRLF, which is what the concrete data in the
  claims exercises.
- The network is an oracle: attempt number n of a chunk yields either a
  transport-level exception (requests.exceptions.RequestException) or a
  response carrying an HTTP status and an abstract body. The body is
  abstracted to the four branches the parsing code distinguishes:
  response.json() raising, a missing or empty "candidates" field, the
  nested candidates[0].content.parts[0] access raising, and a well-formed
  body whose parts[0].get("text", "") is a given string.
- requests.Response.raise_for_status raises exactly for statuses in
  [400, 599]; the special-cased list [429, 500, 502, 503, 504] on line 63
  of the source is a subset of that range, so line 63 and line 65 together
  raise exactly on 400-599.
- translate_chunk may raise ValueError (missing API key); its outcome is
  an Except. Besides the result we record the sequence of time.sleep
  delays and the number of HTTP attempts (requests.post calls) performed,
  which several claims are about. Python treats both None and "" as a
  missing api_key; both are modelled by the empty string.
-/

namespace Subs

deriving instance DecidableEq for Except

/-- ASCII whitespace characters stripped by Python str.strip. -/
def pyIsSpace (c : Char) : Bool :=
  c = ' ' || c = '\t' || c = '\n' || c = '\r' || c = '\x0b' || c = '\x0c'

/-- ASCII decimal digits, matched by the regex class \d on this data. -/
def pyIsDigit (c : Char) : Bool :=
  '0' ≤ c && c ≤ '9'

/-- Drop leading Python whitespace from a character list. -/
def stripLeft : List Char → List Char
  | [] => []
  | c :: cs => if pyIsSpace c then stripLeft cs else c :: cs

/-- Python str.strip: drop leading and trailing whitespace. -/
def pyStrip (s : String) : String :=
  ⟨stripLeft ((stripLeft s.data.reverse).reverse)⟩

/-- Worker for Python str.splitlines over the universal newline
terminators LF, CR and CRLF; the first argument accumulates the current
line in reverse. A terminator ends a line; a final unterminated nonempty
line is kept; an empty tail yields nothing. -/
def splitlinesAux : List Char → List Char → List (List Char)
  | cur, [] => if cur = [] then [] else [cur.reverse]
  | cur, '\r' :: '\n' :: rest => cur.reverse :: splitlinesAux [] rest
  | cur, '\r' :: rest => cur.reverse :: splitlinesAux [] rest
  | cur, '\n' :: rest => cur.reverse :: splitlinesAux [] rest
  | cur, c :: rest => splitlinesAux (c :: cur) rest

/-- Python str.splitlines. -/
def pySplitlines (s : String) : List String :=
  (splitlinesAux [] s.data).map (fun cs => ⟨cs⟩)

/-- One application, anchored at the start of the line, of the marker
pattern of src/translate.py line 89, which in regex notation is an
optional opening bracket, one or more digits, an optional closing
bracket, optional whitespace, an optional colon, optional whitespace.
With no MULTILINE flag the caret matches only at position 0, so re.sub
removes at most one occurrence. Each optional piece is disjoint from
what follows it, so the greedy left-to-right reading is exact. If the
pattern does not match (no digit where one is required) the line is
returned unchanged. -/
def dropIndexMarker (cs : List Char) : List Char :=
  let core : List Char → Option (List Char) := fun l =>
    if l.takeWhile pyIsDigit = [] then none
    else
      let rest1 := l.dropWhile pyIsDigit
      let rest2 := match rest1 with
        | ']' :: r => r
        | r => r
      let rest3 := rest2.dropWhile pyIsSpace
      let rest4 := match rest3 with
        | ':' :: r => r
        | r => r
      some (rest4.dropWhile pyIsSpace)
  match cs with
  | '[' :: r =>
    match core r with
    | some out => out
    | none => cs
  | _ =>
    match core cs with
    | some out => out
    | none => cs

/-- re.sub of the index-marker pattern with the empty string, line 89. -/
def cleanIndexMarker (s : String) : String :=
  ⟨dropIndexMarker s.data⟩

/-- Lines 82-90: split the translated block, strip each line, skip empty
lines, and remove a leading index marker from each kept line. -/
def processLines (lines : List String) : List String :=
  lines.filterMap (fun line =>
    let l := pyStrip line
    if l = "" then none else some (cleanIndexMarker l))

/-- Lines 92-96: pad with empty strings up to count, or truncate to
count, so that the result always has exactly count entries. -/
def reconcile (ls : List String) (count : Nat) : List String :=
  if ls.length < count then ls ++ List.replicate (count - ls.length) ""
  else if ls.length > count then ls.take count
  else ls

/-- Lines 80-96 applied to the text field of a well-formed body. -/
def parseResponseText (text : String) (count : Nat) : List String :=
  reconcile (processLines (pySplitlines (pyStrip text))) count

/-- The four parsing branches a transport-successful response body can
take in lines 73-102 of the source. -/
inductive Body where
  | jsonError
  | noCandidates
  | badCandidate
  | ok (text : String)
deriving DecidableEq

/-- Outcome of one requests.post call: a transport exception, or a
response with an HTTP status code and a body. -/
inductive Attempt where
  | netError
  | response (status : Nat) (body : Body)
deriving DecidableEq

/-- An attempt enters the except-branch of lines 67-71 iff the transport
raised or raise_for_status raised, i.e. the status is in [400, 599]. -/
def attemptFails : Attempt → Bool
  | .netError => true
  | .response status _ => 400 ≤ status && status ≤ 599

/-- The dict {"id": chunk_id, "lines": [...]} returned by translate_chunk. -/
structure ChunkResult where
  id : Nat
  lines : List String
deriving DecidableEq

/-- The one exception translate_chunk can raise: the ValueError of line 34. -/
inductive PyErr where
  | valueError
deriving DecidableEq

/-- Observable outcome of one translate_chunk call: its returned value or
raised exception, the time.sleep delays in order, and the number of
requests.post calls made. -/
structure ChunkTrace where
  result : Except PyErr ChunkResult
  delays : List Nat
  httpAttempts : Nat
deriving DecidableEq

/-- The retry loop of lines 56-71: attempt is the current 0-based attempt
number, remaining the attempts left out of max_retries = 5. Returns the
body of the first successful response (none if every attempt failed),
the delays slept, and the number of attempts consumed. On a failure with
no attempt remaining the loop returns immediately without sleeping,
mirroring the early return of line 70; otherwise it sleeps
base_delay * 2 ^ attempt = 2 * 2 ^ attempt seconds, line 71. -/
def retryLoop (oracle : Nat → Attempt) : Nat → Nat → Option Body × List Nat × Nat
  | _, 0 => (none, [], 0)
  | attempt, r + 1 =>
    let a := oracle attempt
    if attemptFails a then
      if r = 0 then (none, [], 1)
      else
        let t := retryLoop oracle (attempt + 1) r
        (t.1, 2 * 2 ^ attempt :: t.2.1, t.2.2 + 1)
    else
      match a with
      | .response _ body => (some body, [], 1)
      | .netError => (none, [], 1)

/-- Lines 73-102: what translate_chunk returns once a transport-successful
response with the given body is in hand, for the given input texts. -/
def bodyLines (body : Body) (texts : List String) : List String :=
  match body with
  | .jsonError => texts.map (fun t => "[PARSE ERROR] " ++ t)
  | .noCandidates => texts.map (fun t => "[API ERROR] " ++ t)
  | .badCandidate => texts.map (fun t => "[PARSE ERROR] " ++ t)
  | .ok text => parseResponseText text texts.length

/-- translate_chunk, lines 23-102. The empty-texts early return of lines
30-31 precedes the api_key check of lines 33-34; an empty api_key raises
ValueError; otherwise the retry loop runs and its outcome is parsed. -/
def translate_chunk (chunk_id : Nat) (texts : List String) (api_key : String)
    (oracle : Nat → Attempt) : ChunkTrace :=
  if texts = [] then ⟨.ok ⟨chunk_id, []⟩, [], 0⟩
  else if api_key = "" then ⟨.error .valueError, [], 0⟩
  else
    match retryLoop oracle 0 5 with
    | (none, ds, n) => ⟨.ok ⟨chunk_id, texts.map (fun t => "[ERROR] " ++ t)⟩, ds, n⟩
    | (some body, ds, n) => ⟨.ok ⟨chunk_id, bodyLines body texts⟩, ds, n⟩

/-- A subtitle cue as the core reads it: 1-based index, start and end
timecodes (opaque here), and the text. Only text is ever written. -/
structure Segment where
  index : Nat
  start_time : Nat
  end_time : Nat
  text : String
deriving DecidableEq

/-- Line 118: sub.text.replace of a newline with a space. -/
def flattenText (s : String) : String :=
  ⟨s.data.map (fun c => if c = '\n' then ' ' else c)⟩

/-- One entry of the list built by prepare_chunks. -/
structure Chunk where
  id : Nat
  texts : List String
deriving DecidableEq

/-- The loop of lines 116-120 with batch_size = b + 1, where i is the
current value of the range variable: emit the flattened texts of the
slice subs[i : i + batch_size] and continue past it. The fuel argument
only bounds the recursion depth so the function is structurally
recursive; any fuel at least the list length gives the loop's behavior. -/
def chunkFrom (b : Nat) : Nat → Nat → List Segment → List Chunk
  | _, _, [] => []
  | _, 0, _ :: _ => []
  | i, fuel + 1, s :: rest =>
    ⟨i, ((s :: rest).take (b + 1)).map (fun seg => flattenText seg.text)⟩
      :: chunkFrom b (i + b + 1) fuel (rest.drop b)

/-- prepare_chunks, lines 112-121. Python range raises ValueError on step
0; every claim assumes batch_size at least 1, and batch_size = 0 is
modelled as producing no chunks. -/
def prepare_chunks (subs : List Segment) (batch_size : Nat) : List Chunk :=
  match batch_size with
  | 0 => []
  | b + 1 => chunkFrom b 0 subs.length subs

/-- The collection loop of lines 137-141, applied to the per-future
outcomes in completion order: each future.result() either re-raises the
task's exception, aborting the loop, or contributes the entry
translated_map[id] = lines. The map is modelled as an association list
in insertion order (ids are unique in every actual run). -/
def collectResults : List (Except PyErr ChunkResult) → Except PyErr (List (Nat × List String))
  | [] => .ok []
  | .error e :: _ => .error e
  | .ok r :: rest => (collectResults rest).map (fun m => (r.id, r.lines) :: m)

/-- execute_concurrent_translation, lines 123-143, as a function of the
completed traces in completion order. -/
def execute_concurrent_translation (completed : List ChunkTrace) :
    Except PyErr (List (Nat × List String)) :=
  collectResults (completed.map (fun t => t.result))

/-- Python dict lookup translated_map[k] on the association-list model;
with unique keys find? is exact. A key outside the map yields []. -/
def lookupLines (tmap : List (Nat × List String)) (k : Nat) : List String :=
  match tmap.find? (fun p => p.1 == k) with
  | some p => p.2
  | none => []

/-- sorted(translated_map.keys()), line 151. -/
def sortedKeys (tmap : List (Nat × List String)) : List Nat :=
  (tmap.map Prod.fst).insertionSort (· ≤ ·)

/-- The final_translations list of lines 150-152: concatenate the lines
of every key in ascending key order. -/
def finalTranslations (tmap : List (Nat × List String)) : List String :=
  (sortedKeys tmap).flatMap (fun k => lookupLines tmap k)

/-- The enumerate loop of lines 154-156: segment at position i (counting
from the given offset) receives text final[i] when i is in range and is
left untouched otherwise. -/
def updateTexts (final : List String) : Nat → List Segment → List Segment
  | _, [] => []
  | i, s :: rest =>
    (if h : i < final.length then { s with text := final.get ⟨i, h⟩ } else s)
      :: updateTexts final (i + 1) rest

/-- reassemble_subtitles, lines 145-156, returning the updated store. -/
def reassemble_subtitles (subs : List Segment) (tmap : List (Nat × List String)) :
    List Segment :=
  updateTexts (finalTranslations tmap) 0 subs

/-- The per-chunk translate_chunk calls submitted by lines 130-135; the
oracle gives each chunk id its own attempt oracle. -/
def runChunks (chunks : List Chunk) (api_key : String)
    (oracle : Nat → Nat → Attempt) : List ChunkTrace :=
  chunks.map (fun c => translate_chunk c.id c.texts api_key (oracle c.id))

/-- translate_srt, lines 158-192, with completion order fixed to
submission order (the claims settled on this composition do not depend
on completion order): empty stores are saved unchanged; otherwise batch,
dispatch, and reassemble, propagating any exception the dispatcher
re-raises. -/
def translate_srt (subs : List Segment) (api_key : String) (batch_size : Nat)
    (oracle : Nat → Nat → Attempt) : Except PyErr (List Segment) :=
  if subs.length = 0 then .ok subs
  else
    match execute_concurrent_translation
        (runChunks (prepare_chunks subs batch_size) api_key oracle) with
    | .error e => .error e
    | .ok tmap => .ok (reassemble_subtitles subs tmap)

/-! Helper lemmas shared by the claim theorems. -/

theorem reconcile_length (ls : List String) (c : Nat) : (reconcile ls c).length = c := by
  unfold reconcile
  split
  · simp only [List.length_append, List.length_replicate]
    omega
  · split
    · simp only [List.length_take]
      omega
    · omega

theorem bodyLines_length (body : Body) (texts : List String) :
    (bodyLines body texts).length = texts.length := by
  cases body <;> simp [bodyLines, parseResponseText, reconcile_length]

theorem retryLoop_attempts_le (oracle : Nat → Attempt) :
    ∀ (r a : Nat), (retryLoop oracle a r).2.2 ≤ r := by
  intro r
  induction r with
  | zero => intro a; simp [retryLoop]
  | succ r ih =>
    intro a
    simp only [retryLoop]
    split
    · split
      · simp
      · have := ih (a + 1)
        simp only []
        omega
    · split <;> simp

theorem retryLoop_success (oracle : Nat → Attempt) :
    ∀ (k a r s : Nat) (body : Body),
      (∀ i, a ≤ i → i < a + k → attemptFails (oracle i) = true) →
      k < r →
      oracle (a + k) = .response s body →
      attemptFails (oracle (a + k)) = false →
      retryLoop oracle a r
        = (some body, (List.range' a k).map (fun j => 2 * 2 ^ j), k + 1) := by
  intro k
  induction k with
  | zero =>
    intro a r s body _ hkr hok hsucc
    obtain ⟨r', rfl⟩ : ∃ r', r = r' + 1 := ⟨r - 1, by omega⟩
    simp only [Nat.add_zero] at hok hsucc
    have hsucc2 : attemptFails (Attempt.response s body) = false := by
      rw [← hok]; exact hsucc
    simp [retryLoop, hok, hsucc2, List.range']
  | succ k ih =>
    intro a r s body hfail hkr hok hsucc
    obtain ⟨r', rfl⟩ : ∃ r', r = r' + 1 := ⟨r - 1, by omega⟩
    have hfa : attemptFails (oracle a) = true := hfail a (Nat.le_refl a) (by omega)
    have hr' : r' ≠ 0 := by omega
    have ihres := ih (a + 1) r' s body
      (fun i hi hi2 => hfail i (by omega) (by omega)) (by omega)
      (by rw [show a + 1 + k = a + (k + 1) by omega]; exact hok)
      (by rw [show a + 1 + k = a + (k + 1) by omega]; exact hsucc)
    simp [retryLoop, hfa, hr', ihres, List.range'_succ]

theorem retryLoop_exhausted (oracle : Nat → Attempt) :
    ∀ (r a : Nat), 0 < r →
      (∀ i, a ≤ i → i < a + r → attemptFails (oracle i) = true) →
      retryLoop oracle a r
        = (none, (List.range' a (r - 1)).map (fun j => 2 * 2 ^ j), r) := by
  intro r
  induction r with
  | zero => intro a h; omega
  | succ r ih =>
    intro a _ hfail
    have hfa : attemptFails (oracle a) = true := hfail a (Nat.le_refl a) (by omega)
    rcases Nat.eq_zero_or_pos r with hr | hr
    · subst hr
      simp [retryLoop, hfa, List.range']
    · have hr0 : r ≠ 0 := by omega
      have ihres := ih (a + 1) hr (fun i hi hi2 => hfail i (by omega) (by omega))
      have hsub : r + 1 - 1 = (r - 1) + 1 := by omega
      simp [retryLoop, hfa, hr0, ihres, hsub, List.range'_succ]

/-- Success after k failed attempts, k < 5: translate_chunk parses the body
of the first successful response, having slept once per failed attempt. -/
theorem translate_chunk_success (chunk_id : Nat) (texts : List String)
    (api_key : String) (oracle : Nat → Attempt) (k s : Nat) (body : Body)
    (ht : texts ≠ []) (hk : api_key ≠ "")
    (hfail : ∀ i, i < k → attemptFails (oracle i) = true) (hk5 : k < 5)
    (hok : oracle k = .response s body)
    (hsucc : attemptFails (oracle k) = false) :
    translate_chunk chunk_id texts api_key oracle
      = ⟨.ok ⟨chunk_id, bodyLines body texts⟩,
         (List.range' 0 k).map (fun j => 2 * 2 ^ j), k + 1⟩ := by
  have hrl := retryLoop_success oracle k 0 5 s body
    (fun i _ hi => hfail i (by omega)) hk5
    (by simpa using hok) (by simpa using hsucc)
  simp [translate_chunk, ht, hk, hrl]

/-- All five attempts fail: translate_chunk returns the error-marker lines
without raising, after the four backoff delays. -/
theorem translate_chunk_exhausted (chunk_id : Nat) (texts : List String)
    (api_key : String) (oracle : Nat → Attempt)
    (ht : texts ≠ []) (hk : api_key ≠ "")
    (hfail : ∀ i, i < 5 → attemptFails (oracle i) = true) :
    translate_chunk chunk_id texts api_key oracle
      = ⟨.ok ⟨chunk_id, texts.map (fun t => "[ERROR] " ++ t)⟩, [2, 4, 8, 16], 5⟩ := by
  have hrl := retryLoop_exhausted oracle 5 0 (by omega)
    (fun i _ hi => hfail i (by omega))
  have hds : (List.range' 0 (5 - 1)).map (fun j => 2 * 2 ^ j) = [2, 4, 8, 16] := by decide
  rw [hds] at hrl
  simp [translate_chunk, ht, hk, hrl]

theorem chunkFrom_length (b : Nat) :
    ∀ (fuel : Nat) (l : List Segment) (i : Nat), l.length ≤ fuel →
      (chunkFrom b i fuel l).length = (l.length + b) / (b + 1)
  | fuel, [], i, _ => by
    cases fuel <;> simp [chunkFrom, Nat.div_eq_of_lt (by omega : b < b + 1)]
  | 0, s :: rest, i, hf => by simp at hf
  | fuel + 1, s :: rest, i, hf => by
    have ih := chunkFrom_length b fuel (rest.drop b) (i + b + 1)
      (by simp only [List.length_drop]; simp at hf; omega)
    simp only [chunkFrom, List.length_cons, ih, List.length_drop]
    have hstep : rest.length + 1 + b = rest.length + (b + 1) := by omega
    rw [hstep, Nat.add_div_right _ (by omega : 0 < b + 1)]
    rcases Nat.le_total b rest.length with hb | hb
    · have : rest.length - b + b = rest.length := by omega
      rw [this]
    · have h1 : rest.length - b = 0 := by omega
      rw [h1, Nat.zero_add, Nat.div_eq_of_lt (by omega : b < b + 1),
        Nat.div_eq_of_lt (by omega : rest.length < b + 1)]

theorem chunkFrom_get (b : Nat) :
    ∀ (fuel : Nat) (l : List Segment) (i j : Nat), l.length ≤ fuel →
      ∀ (hj : j < (chunkFrom b i fuel l).length),
      (chunkFrom b i fuel l).get ⟨j, hj⟩
        = ⟨i + j * (b + 1),
           ((l.drop (j * (b + 1))).take (b + 1)).map (fun s => flattenText s.text)⟩
  | fuel, [], i, j, _, hj => by
    cases fuel <;> simp [chunkFrom] at hj
  | 0, s :: rest, i, j, hf, hj => by simp at hf
  | fuel + 1, s :: rest, i, 0, hf, hj => by
    have h0 : chunkFrom b i (fuel + 1) (s :: rest)
        = (⟨i, ((s :: rest).take (b + 1)).map (fun seg => flattenText seg.text)⟩ : Chunk)
          :: chunkFrom b (i + b + 1) fuel (rest.drop b) := rfl
    simp [List.get_eq_getElem, h0]
  | fuel + 1, s :: rest, i, j + 1, hf, hj => by
    have h0 : chunkFrom b i (fuel + 1) (s :: rest)
        = (⟨i, ((s :: rest).take (b + 1)).map (fun seg => flattenText seg.text)⟩ : Chunk)
          :: chunkFrom b (i + b + 1) fuel (rest.drop b) := rfl
    have hfr : (rest.drop b).length ≤ fuel := by
      simp only [List.length_drop]
      simp at hf
      omega
    have hj' : j < (chunkFrom b (i + b + 1) fuel (rest.drop b)).length := by
      rw [h0] at hj
      simpa using hj
    have ih := chunkFrom_get b fuel (rest.drop b) (i + b + 1) j hfr hj'
    have hlist : (rest.drop b).drop (j * (b + 1)) = (s :: rest).drop ((j + 1) * (b + 1)) := by
      rw [List.drop_drop]
      have harith2 : (j + 1) * (b + 1) = (j * (b + 1) + b) + 1 := by ring
      rw [harith2, List.drop_succ_cons]
      congr 1
      omega
    have harith : i + b + 1 + j * (b + 1) = i + (j + 1) * (b + 1) := by ring
    simp only [List.get_eq_getElem] at ih ⊢
    simp only [h0, List.getElem_cons_succ]
    rw [ih, hlist, harith]

theorem chunkFrom_flatMap (b : Nat) :
    ∀ (fuel : Nat) (l : List Segment) (i : Nat), l.length ≤ fuel →
      (chunkFrom b i fuel l).flatMap Chunk.texts = l.map (fun s => flattenText s.text)
  | fuel, [], i, _ => by cases fuel <;> simp [chunkFrom]
  | 0, s :: rest, i, hf => by simp at hf
  | fuel + 1, s :: rest, i, hf => by
    have ih := chunkFrom_flatMap b fuel (rest.drop b) (i + b + 1)
      (by simp only [List.length_drop]; simp at hf; omega)
    simp only [chunkFrom, List.flatMap_cons, ih]
    rw [List.take_succ_cons, List.map_cons, List.cons_append, ← List.map_append,
      List.take_append_drop, List.map_cons]

theorem chunkFrom_mem (b : Nat) :
    ∀ (fuel : Nat) (l : List Segment) (i : Nat) (c : Chunk), c ∈ chunkFrom b i fuel l →
      c.texts ≠ [] ∧ c.texts.length ≤ b + 1
  | fuel, [], i, c => by cases fuel <;> simp [chunkFrom]
  | 0, s :: rest, i, c => by simp [chunkFrom]
  | fuel + 1, s :: rest, i, c => by
    intro hc
    rcases List.mem_cons.mp hc with hc | hc
    · subst hc
      constructor
      · simp [List.take_succ_cons]
      · simp only [List.length_map, List.length_take]
        omega
    · exact chunkFrom_mem b fuel (rest.drop b) (i + b + 1) c hc

theorem updateTexts_length (f : List String) :
    ∀ (l : List Segment) (i : Nat), (updateTexts f i l).length = l.length
  | [], _ => rfl
  | s :: rest, i => by
    simp [updateTexts, updateTexts_length f rest (i + 1)]

theorem updateTexts_get (f : List String) :
    ∀ (l : List Segment) (i0 j : Nat) (hj : j < l.length)
      (hj' : j < (updateTexts f i0 l).length),
      (updateTexts f i0 l).get ⟨j, hj'⟩
        = if h : i0 + j < f.length
          then { l.get ⟨j, hj⟩ with text := f.get ⟨i0 + j, h⟩ }
          else l.get ⟨j, hj⟩
  | [], _, j, hj, _ => absurd hj (by simp)
  | s :: rest, i0, 0, hj, hj' => by
    simp [updateTexts, List.get_eq_getElem]
  | s :: rest, i0, j + 1, hj, hj' => by
    have hjr : j < rest.length := by simpa using hj
    have hjr' : j < (updateTexts f (i0 + 1) rest).length := by
      rw [updateTexts_length]
      exact hjr
    have ih := updateTexts_get f rest (i0 + 1) j hjr hjr'
    have harith : i0 + 1 + j = i0 + (j + 1) := by omega
    rw [harith] at ih
    simp only [updateTexts, List.get_eq_getElem, List.getElem_cons_succ]
    simp only [List.get_eq_getElem] at ih
    exact ih

theorem reassemble_length (subs : List Segment) (tmap : List (Nat × List String)) :
    (reassemble_subtitles subs tmap).length = subs.length :=
  updateTexts_length _ subs 0

theorem sortedKeys_sorted (tmap : List (Nat × List String)) :
    List.Sorted (· ≤ ·) (sortedKeys tmap) :=
  List.sorted_insertionSort _ _

theorem sortedKeys_perm (tmap : List (Nat × List String)) :
    (sortedKeys tmap).Perm (tmap.map Prod.fst) :=
  List.perm_insertionSort _ _

theorem sortedKeys_eq_of_perm (tmap₁ tmap₂ : List (Nat × List String))
    (h : tmap₁.Perm tmap₂) : sortedKeys tmap₁ = sortedKeys tmap₂ :=
  List.eq_of_perm_of_sorted
    ((sortedKeys_perm tmap₁).trans ((h.map Prod.fst).trans (sortedKeys_perm tmap₂).symm))
    (sortedKeys_sorted tmap₁) (sortedKeys_sorted tmap₂)

theorem lookupLines_eq_of_mem :
    ∀ (tmap : List (Nat × List String)) (k : Nat) (v : List String),
      (tmap.map Prod.fst).Nodup → (k, v) ∈ tmap → lookupLines tmap k = v
  | [], k, v, _, hmem => absurd hmem (by simp)
  | (k', v') :: rest, k, v, hnd, hmem => by
    rcases List.mem_cons.mp hmem with heq | hmem'
    · rw [Prod.mk.injEq] at heq
      obtain ⟨rfl, rfl⟩ := heq
      simp [lookupLines, List.find?]
    · have hndc : (k' :: rest.map Prod.fst).Nodup := by simpa using hnd
      have hk : k' ≠ k := by
        intro hkk
        subst hkk
        exact (List.nodup_cons.mp hndc).1
          (List.mem_map.mpr ⟨(k', v), hmem', rfl⟩)
      have hnd' : (rest.map Prod.fst).Nodup := (List.nodup_cons.mp hndc).2
      have hbeq : (k' == k) = false := by
        simp [hk]
      simp only [lookupLines, List.find?, hbeq]
      exact lookupLines_eq_of_mem rest k v hnd' hmem'

theorem lookupLines_not_mem (tmap : List (Nat × List String)) (k : Nat)
    (h : k ∉ tmap.map Prod.fst) : lookupLines tmap k = [] := by
  unfold lookupLines
  rw [List.find?_eq_none.mpr]
  intro p hp hbeq
  exact h (List.mem_map.mpr ⟨p, hp, by simpa using hbeq⟩)

theorem lookupLines_eq_of_perm (tmap₁ tmap₂ : List (Nat × List String)) (k : Nat)
    (h : tmap₁.Perm tmap₂) (hnd : (tmap₂.map Prod.fst).Nodup) :
    lookupLines tmap₁ k = lookupLines tmap₂ k := by
  by_cases hk : k ∈ tmap₂.map Prod.fst
  · obtain ⟨p, hp, hfst⟩ := List.mem_map.mp hk
    have hp2 : (k, p.2) ∈ tmap₂ := by
      rw [show (k, p.2) = p from Prod.ext hfst.symm rfl]
      exact hp
    have hnd1 : (tmap₁.map Prod.fst).Nodup := ((h.map Prod.fst).nodup_iff).mpr hnd
    rw [lookupLines_eq_of_mem tmap₁ k p.2 hnd1 (h.mem_iff.mpr hp2),
      lookupLines_eq_of_mem tmap₂ k p.2 hnd hp2]
  · rw [lookupLines_not_mem tmap₂ k hk,
      lookupLines_not_mem tmap₁ k (fun hx => hk ((h.map Prod.fst).mem_iff.mp hx))]

theorem finalTranslations_eq_of_perm (tmap₁ tmap₂ : List (Nat × List String))
    (h : tmap₁.Perm tmap₂) (hnd : (tmap₂.map Prod.fst).Nodup) :
    finalTranslations tmap₁ = finalTranslations tmap₂ := by
  unfold finalTranslations
  rw [sortedKeys_eq_of_perm tmap₁ tmap₂ h]
  congr 1
  funext k
  exact lookupLines_eq_of_perm tmap₁ tmap₂ k h hnd

theorem collectResults_error_iff :
    ∀ (rs : List (Except PyErr ChunkResult)),
      (∃ e, collectResults rs = .error e) ↔ ∃ x ∈ rs, ∃ e, x = .error e
  | [] => by simp [collectResults]
  | .error e :: rest => by
    constructor
    · intro _
      exact ⟨.error e, List.mem_cons_self _ _, e, rfl⟩
    · intro _
      exact ⟨e, rfl⟩
  | .ok r :: rest => by
    have ih := collectResults_error_iff rest
    constructor
    · rintro ⟨e, he⟩
      rcases hr : collectResults rest with e' | m
      · obtain ⟨x, hx, e'', hx2⟩ := ih.mp ⟨e', hr⟩
        exact ⟨x, List.mem_cons_of_mem _ hx, e'', hx2⟩
      · rw [collectResults, hr] at he
        simp [Except.map] at he
    · rintro ⟨x, hx, e, rfl⟩
      rcases List.mem_cons.mp hx with hx1 | hx2
      · exact absurd hx1 (by simp)
      · obtain ⟨e', he'⟩ := ih.mpr ⟨.error e, hx2, e, rfl⟩
        refine ⟨e', ?_⟩
        rw [collectResults, he']
        rfl

theorem collectResults_ok :
    ∀ (rs : List (Except PyErr ChunkResult)) (m : List (Nat × List String)),
      collectResults rs = .ok m →
      m.length = rs.length ∧ ∀ x ∈ rs, ∃ r, x = .ok r ∧ (r.id, r.lines) ∈ m
  | [], m, hm => by
    simp only [collectResults, Except.ok.injEq] at hm
    subst hm
    simp
  | .error e :: rest, m, hm => by
    simp [collectResults] at hm
  | .ok r :: rest, m, hm => by
    rcases hr : collectResults rest with e' | m'
    · rw [collectResults, hr] at hm
      simp [Except.map] at hm
    · rw [collectResults, hr] at hm
      simp only [Except.map, Except.ok.injEq] at hm
      subst hm
      obtain ⟨hlen, hall⟩ := collectResults_ok rest m' hr
      refine ⟨by simp [hlen], ?_⟩
      intro x hx
      rcases List.mem_cons.mp hx with rfl | hx2
      · exact ⟨r, rfl, by simp⟩
      · obtain ⟨r', hr', hmem⟩ := hall x hx2
        exact ⟨r', hr', List.mem_cons_of_mem _ hmem⟩

theorem translate_chunk_no_key (chunk_id : Nat) (texts : List String)
    (oracle : Nat → Attempt) (ht : texts ≠ []) :
    translate_chunk chunk_id texts "" oracle = ⟨.error .valueError, [], 0⟩ := by
  simp [translate_chunk, ht]

theorem api_marker_ne_error_marker (t : String) :
    ("[API ERROR] " ++ t) ≠ ("[ERROR] " ++ t) := by
  intro h
  have hlen := congrArg String.length h
  rw [String.length_append, String.length_append] at hlen
  have h1 : ("[API ERROR] " : String).length = 12 := rfl
  have h2 : ("[ERROR] " : String).length = 8 := rfl
  rw [h1, h2] at hlen
  omega

/-! The claim theorems. -/

/-- C1: whenever translate_chunk returns a result (rather than raising),
the returned lines list has exactly as many entries as the input texts
list, on every code path: the empty-texts early return, a parsed
successful response (padded or truncated to count), exhausted transient
retries, a malformed or empty-candidates response, and a caught parsing
exception. -/
theorem C1_result_length (chunk_id : Nat) (texts : List String) (api_key : String)
    (oracle : Nat → Attempt) (r : ChunkResult)
    (h : (translate_chunk chunk_id texts api_key oracle).result = .ok r) :
    r.lines.length = texts.length := by
  unfold translate_chunk at h
  by_cases ht : texts = []
  · rw [if_pos ht] at h
    have h' : Except.ok (⟨chunk_id, []⟩ : ChunkResult) = Except.ok r := h
    rw [← Except.ok.inj h']
    rw [ht]
  · rw [if_neg ht] at h
    by_cases hk : api_key = ""
    · rw [if_pos hk] at h
      have h' : (Except.error PyErr.valueError : Except PyErr ChunkResult) = Except.ok r := h
      exact absurd h' (by simp)
    · rw [if_neg hk] at h
      rcases hrl : retryLoop oracle 0 5 with ⟨ob, ds, n⟩
      rw [hrl] at h
      cases ob with
      | none =>
        have h' : Except.ok (⟨chunk_id, texts.map (fun t => "[ERROR] " ++ t)⟩ : ChunkResult)
            = Except.ok r := h
        rw [← Except.ok.inj h']
        simp
      | some body =>
        have h' : Except.ok (⟨chunk_id, bodyLines body texts⟩ : ChunkResult)
            = Except.ok r := h
        rw [← Except.ok.inj h']
        exact bodyLines_length body texts

theorem C1_witness :
    (translate_chunk 0 ["hello", "world"] "key" (fun _ => .netError)).result
      = .ok ⟨0, ["[ERROR] hello", "[ERROR] world"]⟩
    ∧ (⟨0, ["[ERROR] hello", "[ERROR] world"]⟩ : ChunkResult).lines.length
        = ["hello", "world"].length :=
  ⟨by decide, C1_result_length 0 ["hello", "world"] "key" (fun _ => .netError)
    ⟨0, ["[ERROR] hello", "[ERROR] world"]⟩ (by decide)⟩

/-- C4: translate_chunk makes at most 5 HTTP attempts, an attempt failing
iff the transport raises or the status is an error status; 4 consecutive
failures followed by a success incur exactly the delays 2, 4, 8, 16
seconds and the successful response body is used; 5 consecutive failures
return, without raising, the texts prefixed with the transport-error
marker. -/
theorem C4_retry_policy :
    (∀ (chunk_id : Nat) (texts : List String) (api_key : String) (oracle : Nat → Attempt),
      (translate_chunk chunk_id texts api_key oracle).httpAttempts ≤ 5)
    ∧ (∀ (chunk_id : Nat) (texts : List String) (api_key : String)
        (oracle : Nat → Attempt) (s : Nat) (body : Body),
        texts ≠ [] → api_key ≠ "" →
        (∀ i, i < 4 → attemptFails (oracle i) = true) →
        oracle 4 = .response s body →
        attemptFails (oracle 4) = false →
        translate_chunk chunk_id texts api_key oracle
          = ⟨.ok ⟨chunk_id, bodyLines body texts⟩, [2, 4, 8, 16], 5⟩)
    ∧ (∀ (chunk_id : Nat) (texts : List String) (api_key : String) (oracle : Nat → Attempt),
        texts ≠ [] → api_key ≠ "" →
        (∀ i, i < 5 → attemptFails (oracle i) = true) →
        translate_chunk chunk_id texts api_key oracle
          = ⟨.ok ⟨chunk_id, texts.map (fun t => "[ERROR] " ++ t)⟩, [2, 4, 8, 16], 5⟩) := by
  refine ⟨?_, ?_, ?_⟩
  · intro chunk_id texts api_key oracle
    unfold translate_chunk
    by_cases ht : texts = []
    · rw [if_pos ht]
      simp
    · rw [if_neg ht]
      by_cases hk : api_key = ""
      · rw [if_pos hk]
        simp
      · rw [if_neg hk]
        have hle := retryLoop_attempts_le oracle 5 0
        rcases hrl : retryLoop oracle 0 5 with ⟨ob, ds, n⟩
        rw [hrl] at hle
        cases ob <;> simpa using hle
  · intro chunk_id texts api_key oracle s body ht hk hfail hok hsucc
    have h := translate_chunk_success chunk_id texts api_key oracle 4 s body
      ht hk hfail (by omega) hok hsucc
    rw [h]
    rw [show (List.range' 0 4).map (fun j => 2 * 2 ^ j) = [2, 4, 8, 16] by decide]
  · intro chunk_id texts api_key oracle ht hk hfail
    exact translate_chunk_exhausted chunk_id texts api_key oracle ht hk hfail

theorem C4_witness :
    translate_chunk 0 ["a", "b", "c"] "key"
        (fun n => if n < 4 then .netError else .response 200 (.ok "x"))
      = ⟨.ok ⟨0, ["x", "", ""]⟩, [2, 4, 8, 16], 5⟩
    ∧ translate_chunk 1 ["hello", "world"] "key" (fun _ => .netError)
      = ⟨.ok ⟨1, ["[ERROR] hello", "[ERROR] world"]⟩, [2, 4, 8, 16], 5⟩ := by
  constructor
  · have h := C4_retry_policy.2.1 0 ["a", "b", "c"] "key"
      (fun n => if n < 4 then .netError else .response 200 (.ok "x")) 200 (.ok "x")
      (by decide) (by decide) (by decide) (by decide) (by decide)
    exact h.trans (by decide)
  · have h := C4_retry_policy.2.2 1 ["hello", "world"] "key" (fun _ => .netError)
      (by decide) (by decide) (by decide)
    exact h.trans (by decide)

/-- C7: a transport-successful response whose body lacks a non-empty
candidates field makes translate_chunk return immediately, with no
further HTTP attempt beyond the ones already made, lines being the texts
prefixed with the API-error marker, which differs from the
transport-failure marker. -/
theorem C7_api_error_marker (chunk_id : Nat) (texts : List String) (api_key : String)
    (oracle : Nat → Attempt) (k s : Nat)
    (ht : texts ≠ []) (hk : api_key ≠ "")
    (hfail : ∀ i, i < k → attemptFails (oracle i) = true) (hk5 : k < 5)
    (hok : oracle k = .response s .noCandidates)
    (hsucc : attemptFails (oracle k) = false) :
    translate_chunk chunk_id texts api_key oracle
      = ⟨.ok ⟨chunk_id, texts.map (fun t => "[API ERROR] " ++ t)⟩,
         (List.range' 0 k).map (fun j => 2 * 2 ^ j), k + 1⟩
    ∧ ∀ t : String, ("[API ERROR] " ++ t) ≠ ("[ERROR] " ++ t) := by
  refine ⟨?_, api_marker_ne_error_marker⟩
  have h := translate_chunk_success chunk_id texts api_key oracle k s .noCandidates
    ht hk hfail hk5 hok hsucc
  rw [h]
  rfl

theorem C7_witness :
    translate_chunk 0 ["foo"] "key" (fun _ => .response 200 .noCandidates)
      = ⟨.ok ⟨0, ["[API ERROR] foo"]⟩, [], 1⟩ := by
  have h := (C7_api_error_marker 0 ["foo"] "key" (fun _ => .response 200 .noCandidates)
    0 200 (by decide) (by decide) (by decide) (by decide) (by decide) (by decide)).1
  exact h.trans (by decide)

/-- C8: if parsing a transport-successful response raises (response.json()
failing, or the nested candidates access failing), translate_chunk
catches the exception and returns a result — never an exception — whose
lines are the texts prefixed with the parse-error marker. -/
theorem C8_parse_error_caught (chunk_id : Nat) (texts : List String) (api_key : String)
    (oracle : Nat → Attempt) (k s : Nat) (body : Body)
    (ht : texts ≠ []) (hk : api_key ≠ "")
    (hfail : ∀ i, i < k → attemptFails (oracle i) = true) (hk5 : k < 5)
    (hok : oracle k = .response s body)
    (hsucc : attemptFails (oracle k) = false)
    (hbody : body = .jsonError ∨ body = .badCandidate) :
    (translate_chunk chunk_id texts api_key oracle).result
      = .ok ⟨chunk_id, texts.map (fun t => "[PARSE ERROR] " ++ t)⟩ := by
  have h := translate_chunk_success chunk_id texts api_key oracle k s body
    ht hk hfail hk5 hok hsucc
  rw [h]
  rcases hbody with rfl | rfl <;> rfl

theorem C8_witness :
    (translate_chunk 0 ["a"] "key" (fun _ => .response 200 .jsonError)).result
      = .ok ⟨0, ["[PARSE ERROR] a"]⟩ := by
  have h := C8_parse_error_caught 0 ["a"] "key" (fun _ => .response 200 .jsonError)
    0 200 .jsonError (by decide) (by decide) (by decide) (by decide) (by decide)
    (by decide) (Or.inl rfl)
  exact h.trans (by decide)

/-- C9 (code bug): the marker-stripping regex handles the bracketed form
and the colon form, but its pattern has an optional colon where the
source comment promises the dotted form "1."; on the line "3. hello" the
code strips only the digits and yields ". hello", not "hello". The last
conjunct checks the splitting into non-empty stripped lines. -/
theorem C9_index_marker_bug :
    cleanIndexMarker "[3] hello" = "hello"
    ∧ cleanIndexMarker "3: hello" = "hello"
    ∧ cleanIndexMarker "3. hello" = ". hello"
    ∧ cleanIndexMarker "3. hello" ≠ "hello"
    ∧ (translate_chunk 0 ["x"] "key" (fun _ => .response 200 (.ok "3. hello"))).result
        = .ok ⟨0, [". hello"]⟩
    ∧ processLines ["[1] a", "", "  ", "2. b"] = ["a", ". b"] :=
  ⟨by decide, by decide, by decide, by decide, by decide, by decide⟩

/-- C10: an empty texts list returns immediately with an empty lines list,
zero HTTP attempts and no delays, for every api_key — including the empty
one — because the early return precedes the credential check. -/
theorem C10_empty_texts (chunk_id : Nat) (api_key : String) (oracle : Nat → Attempt) :
    translate_chunk chunk_id [] api_key oracle = ⟨.ok ⟨chunk_id, []⟩, [], 0⟩ := rfl

/-- C2 (counterexample is elsewhere; this is the reassembler contract):
reassemble_subtitles concatenates the map entries in ascending key order
into one flat sequence, writes entry j of it into the text of segment j,
leaves count, order, indices and timecodes unchanged, leaves segments at
or beyond the flat length entirely unmodified, and its output is
invariant under permuting the order the entries were added to the map. -/
theorem C2_reassemble_spec (subs : List Segment) (tmap : List (Nat × List String))
    (hnd : (tmap.map Prod.fst).Nodup) :
    List.Sorted (· ≤ ·) (sortedKeys tmap)
    ∧ (sortedKeys tmap).Perm (tmap.map Prod.fst)
    ∧ (reassemble_subtitles subs tmap).length = subs.length
    ∧ (∀ (j : Nat) (hs : j < subs.length)
        (ho : j < (reassemble_subtitles subs tmap).length),
        ((reassemble_subtitles subs tmap).get ⟨j, ho⟩).index = (subs.get ⟨j, hs⟩).index
        ∧ ((reassemble_subtitles subs tmap).get ⟨j, ho⟩).start_time
            = (subs.get ⟨j, hs⟩).start_time
        ∧ ((reassemble_subtitles subs tmap).get ⟨j, ho⟩).end_time
            = (subs.get ⟨j, hs⟩).end_time)
    ∧ (∀ (j : Nat) (hs : j < subs.length)
        (ho : j < (reassemble_subtitles subs tmap).length)
        (hf : j < (finalTranslations tmap).length),
        ((reassemble_subtitles subs tmap).get ⟨j, ho⟩).text
          = (finalTranslations tmap).get ⟨j, hf⟩)
    ∧ (∀ (j : Nat) (hs : j < subs.length)
        (ho : j < (reassemble_subtitles subs tmap).length),
        (finalTranslations tmap).length ≤ j →
        (reassemble_subtitles subs tmap).get ⟨j, ho⟩ = subs.get ⟨j, hs⟩)
    ∧ (∀ tmap' : List (Nat × List String), tmap'.Perm tmap →
        reassemble_subtitles subs tmap' = reassemble_subtitles subs tmap) := by
  have hupd : ∀ (j : Nat) (hs : j < subs.length)
      (ho : j < (reassemble_subtitles subs tmap).length),
      (reassemble_subtitles subs tmap).get ⟨j, ho⟩
        = if h : j < (finalTranslations tmap).length
          then { subs.get ⟨j, hs⟩ with text := (finalTranslations tmap).get ⟨j, h⟩ }
          else subs.get ⟨j, hs⟩ := by
    intro j hs ho
    have hg := updateTexts_get (finalTranslations tmap) subs 0 j hs ho
    simpa using hg
  refine ⟨sortedKeys_sorted tmap, sortedKeys_perm tmap, reassemble_length subs tmap,
    ?_, ?_, ?_, ?_⟩
  · intro j hs ho
    rw [hupd j hs ho]
    by_cases hf : j < (finalTranslations tmap).length
    · rw [dif_pos hf]
      exact ⟨rfl, rfl, rfl⟩
    · rw [dif_neg hf]
      exact ⟨rfl, rfl, rfl⟩
  · intro j hs ho hf
    rw [hupd j hs ho, dif_pos hf]
  · intro j hs ho hge
    rw [hupd j hs ho, dif_neg (by omega)]
  · intro tmap' hperm
    unfold reassemble_subtitles
    rw [finalTranslations_eq_of_perm tmap' tmap hperm hnd]

theorem C2_witness :
    reassemble_subtitles [⟨1, 0, 1, "p"⟩, ⟨2, 1, 2, "q"⟩, ⟨3, 2, 3, "r"⟩]
        [(30, ["x"]), (0, ["a", "b"])]
      = reassemble_subtitles [⟨1, 0, 1, "p"⟩, ⟨2, 1, 2, "q"⟩, ⟨3, 2, 3, "r"⟩]
        [(0, ["a", "b"]), (30, ["x"])]
    ∧ reassemble_subtitles [⟨1, 0, 1, "p"⟩, ⟨2, 1, 2, "q"⟩, ⟨3, 2, 3, "r"⟩]
        [(0, ["a", "b"]), (30, ["x"])]
      = [⟨1, 0, 1, "a"⟩, ⟨2, 1, 2, "b"⟩, ⟨3, 2, 3, "x"⟩] :=
  ⟨(C2_reassemble_spec [⟨1, 0, 1, "p"⟩, ⟨2, 1, 2, "q"⟩, ⟨3, 2, 3, "r"⟩]
      [(0, ["a", "b"]), (30, ["x"])] (by decide)).2.2.2.2.2.2
      [(30, ["x"]), (0, ["a", "b"])] (by decide),
    by decide⟩

/-- C3 counterexample: a segment whose text contains a newline is
flattened to a single line by the batcher, so the concatenation of the
batches' texts is not the original text sequence. -/
theorem C3_counterexample :
    prepare_chunks [⟨1, 0, 1, "a\nb"⟩] 1 = [⟨0, ["a b"]⟩]
    ∧ (prepare_chunks [⟨1, 0, 1, "a\nb"⟩] 1).flatMap Chunk.texts
        ≠ [⟨1, 0, 1, "a\nb"⟩].map Segment.text :=
  ⟨by decide, by decide⟩

/-- C3 (amended): for batch_size at least 1, prepare_chunks produces
exactly ceil(N / batch_size) batches; batch j carries id j * batch_size —
the 0-based index of its first element — and holds the next at most
batch_size consecutive texts, flattened (newlines replaced by spaces);
the concatenation of all batches' texts is the original text sequence
with each text flattened; empty input yields zero batches. -/
theorem C3_batcher_spec (subs : List Segment) (batch_size : Nat) (hb : 1 ≤ batch_size) :
    (prepare_chunks subs batch_size).length = (subs.length + batch_size - 1) / batch_size
    ∧ (∀ (j : Nat) (hj : j < (prepare_chunks subs batch_size).length),
        (prepare_chunks subs batch_size).get ⟨j, hj⟩
          = ⟨j * batch_size,
             ((subs.drop (j * batch_size)).take batch_size).map
               (fun s => flattenText s.text)⟩)
    ∧ (prepare_chunks subs batch_size).flatMap Chunk.texts
        = subs.map (fun s => flattenText s.text)
    ∧ (subs = [] → prepare_chunks subs batch_size = [])
    ∧ (∀ c ∈ prepare_chunks subs batch_size,
        c.texts ≠ [] ∧ c.texts.length ≤ batch_size) := by
  obtain ⟨b, rfl⟩ : ∃ b, batch_size = b + 1 := ⟨batch_size - 1, by omega⟩
  refine ⟨?_, ?_, ?_, ?_, ?_⟩
  · have h := chunkFrom_length b subs.length subs 0 (Nat.le_refl _)
    have h2 : subs.length + (b + 1) - 1 = subs.length + b := by omega
    rw [h2]
    exact h
  · intro j hj
    have h := chunkFrom_get b subs.length subs 0 j (Nat.le_refl _) hj
    have h2 : (0 : Nat) + j * (b + 1) = j * (b + 1) := Nat.zero_add _
    rw [h2] at h
    exact h
  · exact chunkFrom_flatMap b subs.length subs 0 (Nat.le_refl _)
  · rintro rfl
    rfl
  · intro c hc
    exact chunkFrom_mem b subs.length subs 0 c hc

theorem C3_witness :
    (prepare_chunks [⟨1, 0, 1, "a\nb"⟩, ⟨2, 1, 2, "c"⟩, ⟨3, 2, 3, "d"⟩] 2).flatMap
        Chunk.texts
      = ["a b", "c", "d"] :=
  ((C3_batcher_spec [⟨1, 0, 1, "a\nb"⟩, ⟨2, 1, 2, "c"⟩, ⟨3, 2, 3, "d"⟩] 2
    (by decide)).2.2.1).trans (by decide)

/-- C5 counterexample: one chunk whose translate_chunk call raised makes
execute_concurrent_translation re-raise instead of returning a map
holding the sibling's result, in either completion order. -/
theorem C5_counterexample :
    execute_concurrent_translation
        [⟨.error .valueError, [], 0⟩, ⟨.ok ⟨30, ["x"]⟩, [], 1⟩]
      = .error .valueError
    ∧ execute_concurrent_translation
        [⟨.ok ⟨30, ["x"]⟩, [], 1⟩, ⟨.error .valueError, [], 0⟩]
      = .error .valueError :=
  ⟨by decide, by decide⟩

/-- C5 (amended): execute_concurrent_translation raises iff some chunk's
translate_chunk call raised — so one task's uncaught exception prevents
any ResultMap, and with it the sibling results, from being returned —
and when every chunk returned normally the returned map holds exactly
one entry per chunk. -/
theorem C5_dispatcher_spec (completed : List ChunkTrace) :
    ((∃ e, execute_concurrent_translation completed = .error e)
      ↔ ∃ t ∈ completed, ∃ e, t.result = .error e)
    ∧ (∀ m, execute_concurrent_translation completed = .ok m →
        m.length = completed.length
        ∧ ∀ t ∈ completed, ∃ r, t.result = .ok r ∧ (r.id, r.lines) ∈ m) := by
  constructor
  · rw [show execute_concurrent_translation completed
        = collectResults (completed.map (fun t => t.result)) from rfl,
      collectResults_error_iff]
    constructor
    · rintro ⟨x, hx, e, rfl⟩
      obtain ⟨t, ht, hres⟩ := List.mem_map.mp hx
      exact ⟨t, ht, e, hres⟩
    · rintro ⟨t, ht, e, hres⟩
      exact ⟨.error e, List.mem_map.mpr ⟨t, ht, hres⟩, e, rfl⟩
  · intro m hm
    rw [show execute_concurrent_translation completed
        = collectResults (completed.map (fun t => t.result)) from rfl] at hm
    obtain ⟨hlen, hall⟩ := collectResults_ok (completed.map (fun t => t.result)) m hm
    refine ⟨by simpa using hlen, ?_⟩
    intro t ht
    exact hall t.result (List.mem_map.mpr ⟨t, ht, rfl⟩)

theorem C5_witness :
    execute_concurrent_translation [⟨.ok ⟨0, ["a"]⟩, [], 1⟩] = .ok [(0, ["a"])]
    ∧ ([(0, ["a"])] : List (Nat × List String)).length
        = [(⟨.ok ⟨0, ["a"]⟩, [], 1⟩ : ChunkTrace)].length :=
  ⟨by decide,
    ((C5_dispatcher_spec [⟨.ok ⟨0, ["a"]⟩, [], 1⟩]).2 [(0, ["a"])] (by decide)).1⟩

/-- C6 counterexample: with the API key absent and two non-empty batches,
the missing-credential ValueError is raised separately inside each
dispatched batch's translate_chunk call — per-batch work is dispatched
and each batch raises — rather than once before dispatch. -/
theorem C6_counterexample :
    runChunks (prepare_chunks [⟨1, 0, 1, "a"⟩, ⟨2, 1, 2, "b"⟩] 1) ""
        (fun _ _ => .netError)
      = [⟨.error .valueError, [], 0⟩, ⟨.error .valueError, [], 0⟩]
    ∧ translate_srt [⟨1, 0, 1, "a"⟩, ⟨2, 1, 2, "b"⟩] "" 1 (fun _ _ => .netError)
      = .error .valueError :=
  ⟨by decide, by decide⟩

/-- C6 (amended): with the API key absent and a non-empty store, the run
fails with the missing-credential ValueError and no batch performs any
network activity, but the check happens inside each dispatched batch
(every per-batch trace is the raised ValueError with zero HTTP attempts)
and the error surfaces through the dispatcher, not through a single
up-front check in translate_srt before dispatch. -/
theorem C6_missing_key (subs : List Segment) (batch_size : Nat)
    (oracle : Nat → Nat → Attempt) (hs : subs ≠ []) (hb : 1 ≤ batch_size) :
    translate_srt subs "" batch_size oracle = .error .valueError
    ∧ ∀ t ∈ runChunks (prepare_chunks subs batch_size) "" oracle,
        t = ⟨.error .valueError, [], 0⟩ := by
  obtain ⟨b, rfl⟩ : ∃ b, batch_size = b + 1 := ⟨batch_size - 1, by omega⟩
  have hall : ∀ t ∈ runChunks (prepare_chunks subs (b + 1)) "" oracle,
      t = ⟨.error .valueError, [], 0⟩ := by
    intro t htm
    obtain ⟨c, hc, rfl⟩ := List.mem_map.mp htm
    exact translate_chunk_no_key c.id c.texts (oracle c.id)
      (chunkFrom_mem b subs.length subs 0 c hc).1
  refine ⟨?_, hall⟩
  obtain ⟨s, rest, rfl⟩ : ∃ s rest, subs = s :: rest := by
    cases subs with
    | nil => exact absurd rfl hs
    | cons s rest => exact ⟨s, rest, rfl⟩
  obtain ⟨c, cs, hcc⟩ : ∃ c cs, prepare_chunks (s :: rest) (b + 1) = c :: cs :=
    ⟨_, _, rfl⟩
  have htr : translate_chunk c.id c.texts "" (oracle c.id) = ⟨.error .valueError, [], 0⟩ :=
    hall _ (by rw [hcc]; exact List.mem_cons_self _ _)
  unfold translate_srt
  rw [if_neg (by simp)]
  rw [hcc]
  simp [execute_concurrent_translation, runChunks, htr, collectResults]

theorem C6_witness :
    translate_srt [⟨1, 0, 1, "hello"⟩] "" 30 (fun _ _ => .netError)
      = .error .valueError :=
  (C6_missing_key [⟨1, 0, 1, "hello"⟩] 30 (fun _ _ => .netError)
    (by decide) (by decide)).1

end Subs
